import Mathlib

/-!
Shallow embedding of the student-verification system:
- `src/web_app/app.py` (registration web app),
- `src/scraper_module/scraper.py` (roster ingestion),
- `src/bot_service/whatsapp_bot.py` (approval bot).

Strings are Lean `String`s; SQLite tables are association lists; the
Selenium/WhatsApp surface is abstracted to the data the core logic reads
from it (the `title` attribute, the element text, and whether an approve
button is found and clicked successfully).
-/

namespace StudentVerification

/-- The branch chain of `normalize_phone` (app.py lines 44-52 and the
identical copy in whatsapp_bot.py lines 69-77), acting on the digit
string after non-digits were stripped:
`if digits.startswith('0') and len(digits) == 10: digits = '233' + digits[1:]`,
`elif digits.startswith('233') and len(digits) == 12: pass`,
`elif len(digits) == 9: digits = '233' + digits`. -/
def normDigits (digits : List Char) : List Char :=
  if digits.take 1 = ['0'] ∧ digits.length = 10 then ['2', '3', '3'] ++ digits.drop 1
  else if digits.take 3 = ['2', '3', '3'] ∧ digits.length = 12 then digits
  else if digits.length = 9 then ['2', '3', '3'] ++ digits
  else digits

/-- `normalize_phone` (app.py lines 32-52; whatsapp_bot.py lines 57-77):
`if not phone: return ""`, then `digits = re.sub(r'\D', '', phone)`
(strip every non-digit; modelled with ASCII `Char.isDigit`), then the
Ghana-format branch chain, then `return digits`. Total and pure. -/
def normalize_phone (phone : String) : String :=
  if phone = "" then ""
  else String.mk (normDigits (phone.data.filter Char.isDigit))

/-- `validate_phone` (app.py lines 66-82): strip non-digits; reject unless
the digit count is 9-12; a number starting with '0' must have exactly 10
digits; one starting with '233' must have exactly 12; returns
`(ok, error_message)`. -/
def validate_phone (phone : String) : Bool × String :=
  let digits := phone.data.filter Char.isDigit
  if digits.length < 9 ∨ digits.length > 12 then
    (false, "Phone number must be 9-12 digits")
  else if digits.take 1 = ['0'] then
    if digits.length ≠ 10 then
      (false, "Local numbers should be 10 digits (e.g., 0551234567)")
    else (true, "")
  else if digits.take 3 = ['2', '3', '3'] then
    if digits.length ≠ 12 then
      (false, "International format should be 12 digits (e.g., 233551234567)")
    else (true, "")
  else (true, "")

/-- Stated from the spec's words for the Normalizer contract (spec section 4.1),
to be compared with the source-derived `normalize_phone`: strip every
non-digit character; if the digit string starts with the trunk prefix "0"
and has length 10, replace the prefix with the country code; if it already
starts with the country code "233" and has length 12, return it unchanged;
if it has length 9, prepend the country code; otherwise return the stripped
digits unchanged; empty input yields the empty string. -/
def normalizeSpec (raw : String) : String :=
  let digits := raw.data.filter Char.isDigit
  let out :=
    if ['0'].isPrefixOf digits ∧ digits.length = 10 then ['2', '3', '3'] ++ digits.drop 1
    else if ['2', '3', '3'].isPrefixOf digits ∧ digits.length = 12 then digits
    else if digits.length = 9 then ['2', '3', '3'] ++ digits
    else digits
  String.mk out

/-- A row of the `whitelist` table (scraper.py lines 38-44):
`phone_number TEXT PRIMARY KEY, app_id TEXT`. The primary key is the
phone number, so the table is keyed by canonical contact. -/
structure WlRow where
  phone_number : String
  app_id : String
deriving DecidableEq

/-- Outcome of the registration flow surfaced to the user
(app.py `confirm_identity`): success page, validation error message, or
the phone-already-registered-by-another-student conflict. -/
inductive RegisterResult where
  | success
  | rejected (msg : String)
  | conflict
deriving DecidableEq

/-- SQLite `INSERT OR REPLACE INTO whitelist (phone_number, app_id)`
(app.py lines 163-166) under the `phone_number` PRIMARY KEY: any existing
row with the same phone number is replaced; rows with other phone numbers
are kept. -/
def insertOrReplaceWl (wl : List WlRow) (phone app_id : String) : List WlRow :=
  wl.filter (fun r => r.phone_number != phone) ++ [⟨phone, app_id⟩]

/-- The POST branch of `confirm_identity` (app.py lines 136-177) acting on
the whitelist table: validate the phone, on failure flash the error
message; normalize; `SELECT app_id FROM whitelist WHERE phone_number = ?
AND app_id != ?` — if a row exists, report the conflict without touching
the table; otherwise `INSERT OR REPLACE` the row. Returns the outcome and
the new table state. -/
def register (wl : List WlRow) (app_id phone : String) : RegisterResult × List WlRow :=
  let v := validate_phone phone
  if v.1 = false then (.rejected v.2, wl)
  else
    let np := normalize_phone phone
    if wl.any (fun r => r.phone_number == np && r.app_id != app_id) then (.conflict, wl)
    else (.success, insertOrReplaceWl wl np app_id)

/-- `SELECT app_id FROM whitelist WHERE phone_number = ?` with `fetchone`:
the app_id of the first row carrying that phone number, if any. -/
def lookupPhone (wl : List WlRow) (phone : String) : Option String :=
  (wl.find? (fun r => r.phone_number == phone)).map WlRow.app_id

/-- Whitelist-table states reachable from the empty table through the
registration flow alone. -/
inductive ReachableWl : List WlRow → Prop where
  | nil : ReachableWl []
  | step (wl : List WlRow) (app_id phone : String) :
      ReachableWl wl → ReachableWl (register wl app_id phone).2

/-- A row of the `valid_students` table (scraper.py lines 29-37):
`app_id TEXT PRIMARY KEY, full_name, programme, category`
(the `scraped_at` default timestamp is not modelled). -/
structure Student where
  app_id : String
  full_name : String
  programme : String
  category : String
deriving DecidableEq

/-- `save_student` (scraper.py lines 51-65): `INSERT OR REPLACE INTO
valid_students (app_id, full_name, programme, category)` under the
`app_id` PRIMARY KEY, returning `True` (the exception path, a
persistence fault, is outside the model). -/
def save_student (roster : List Student) (app_id name programme category : String) :
    Bool × List Student :=
  (true, roster.filter (fun s => s.app_id != app_id) ++ [⟨app_id, name, programme, category⟩])

/-- `is_already_approved` (whatsapp_bot.py lines 79-102): `SELECT 1 FROM
approvals_log WHERE phone_number = ? AND group_name = ?` on the ledger of
(phone_number, group_name) pairs; the `CREATE TABLE IF NOT EXISTS` is the
table's existence, not a state change on its rows. -/
def is_already_approved (ledger : List (String × String)) (phone group_name : String) : Bool :=
  ledger.any (fun r => r.1 == phone && r.2 == group_name)

/-- `log_approval` (whatsapp_bot.py lines 104-117): `INSERT OR IGNORE INTO
approvals_log (phone_number, group_name)` under the
`UNIQUE(phone_number, group_name)` constraint: a duplicate pair is
ignored, a new pair is appended. -/
def log_approval (ledger : List (String × String)) (phone group_name : String) :
    List (String × String) :=
  if ledger.any (fun r => r.1 == phone && r.2 == group_name) then ledger
  else ledger ++ [(phone, group_name)]

/-- Result of the spec's `record` operation on the Approval Ledger. -/
inductive RecordResult where
  | inserted
  | alreadyPresent
deriving DecidableEq

/-- The spec's `record(contact, group)` as the code realises it: the
`is_already_approved` check followed by `log_approval`, exactly the
combination `process_group` runs (whatsapp_bot.py lines 238-252); the
caller learns whether this call created the row. -/
def record (ledger : List (String × String)) (phone group_name : String) :
    RecordResult × List (String × String) :=
  if is_already_approved ledger phone group_name then (.alreadyPresent, ledger)
  else (.inserted, log_approval ledger phone group_name)

/-- `MAX_APPROVALS_PER_CYCLE = 10` (whatsapp_bot.py line 35). -/
def MAX_APPROVALS_PER_CYCLE : Nat := 10

/-- Characters matched by the class `[\d\s\-]` of the phone-pattern regex
in `extract_phone_from_element` (whatsapp_bot.py line 134). -/
def phoneClassChar (c : Char) : Bool :=
  c.isDigit || c.isWhitespace || c == '-'

/-- One anchored attempt of the regex `[\+]?[\d\s\-]{9,15}` at the head of
the character list: an optional leading plus, then greedily 9 to 15
characters of the class. A plus not followed by at least 9 class
characters cannot match (backtracking to the empty option fails, since
the plus itself is not a class character). -/
def matchPhoneAt (l : List Char) : Option (List Char) :=
  match l with
  | '+' :: rest =>
    let run := (rest.takeWhile phoneClassChar).take 15
    if run.length ≥ 9 then some ( '+' :: run) else none
  | _ =>
    let run := (l.takeWhile phoneClassChar).take 15
    if run.length ≥ 9 then some run else none

/-- `re.search(r'[\+]?[\d\s\-]{9,15}', text)`: the leftmost match, scanning
attempt positions left to right. -/
def searchPhone (l : List Char) : Option (List Char) :=
  match l with
  | [] => none
  | c :: rest =>
    match matchPhoneAt (c :: rest) with
    | some m => some m
    | none => searchPhone rest

/-- A pending-request element as the bot reads it: the `title` attribute
(`None` or a string), the element text, and whether an approve button is
found in it and its click goes through (the external approval action
succeeding; whatsapp_bot.py lines 243-269 — when no button is found or
the click fails, nothing is logged). -/
structure Entry where
  title : Option String
  text : String
  approveBtn : Bool
deriving DecidableEq

/-- `extract_phone_from_element` (whatsapp_bot.py lines 120-139): a truthy
`title` attribute is normalized and returned; otherwise the first
phone-pattern match in the text is normalized; otherwise the empty
string. -/
def extract_phone_from_element (e : Entry) : String :=
  match e.title with
  | some t => if t = "" then
      match searchPhone e.text.data with
      | some m => normalize_phone (String.mk m)
      | none => ""
    else normalize_phone t
  | none =>
    match searchPhone e.text.data with
    | some m => normalize_phone (String.mk m)
    | none => ""

/-- A row as read back by `SELECT phone_number, app_id FROM whitelist`. -/
structure DbRow where
  phone_number : String
  app_id : String
deriving DecidableEq

/-- `get_whitelist` (whatsapp_bot.py lines 43-55): every stored row's
phone number is re-normalized and mapped to its app_id; the Python dict
is modelled as the list of (key, value) pairs in insertion order — the
bot only tests key membership and reads values for logging. -/
def get_whitelist (rows : List DbRow) : List (String × String) :=
  rows.map (fun row => (normalize_phone row.phone_number, row.app_id))

/-- The per-group sweep state: the `approvals` counter, the
`approvals_log` table, and the list of phones for which the external
approve action was invoked (and succeeded) this sweep. -/
structure SweepState where
  approvals : Nat
  ledger : List (String × String)
  actions : List String
deriving DecidableEq

/-- The body of the pending-request loop in `process_group`
(whatsapp_bot.py lines 227-275) for one element: extract the phone; an
empty extraction is skipped as unresolved; a phone absent from the
whitelist dict is skipped; an already-approved (phone, group) pair is
skipped; otherwise, when the approve button is found and clicked, the
approval is logged and counted. -/
def processEntry (group_name : String) (whitelist : List (String × String))
    (st : SweepState) (e : Entry) : SweepState :=
  let phone := extract_phone_from_element e
  if phone = "" then st
  else if whitelist.any (fun r => r.1 == phone) then
    if is_already_approved st.ledger phone group_name then st
    else if e.approveBtn then
      ⟨st.approvals + 1, log_approval st.ledger phone group_name, st.actions ++ [phone]⟩
    else st
  else st

/-- The pending-request processing of `process_group` (whatsapp_bot.py
lines 209-275): iterate over `request_items[:MAX_APPROVALS_PER_CYCLE]`
against the given whitelist snapshot and ledger state. The navigation
steps (search box, opening the group, locating the pending section) are
the out-of-scope automation surface; their failure yields zero approvals
and an unchanged ledger, which is the fold over the empty entry list. -/
def process_group (entries : List Entry) (whitelist : List (String × String))
    (ledger : List (String × String)) (group_name : String) : SweepState :=
  (entries.take MAX_APPROVALS_PER_CYCLE).foldl (processEntry group_name whitelist)
    ⟨0, ledger, []⟩

/-! ## Normalizer lemmas -/

theorem normDigits_fix233 (x : List Char) (h3 : x.take 3 = ['2', '3', '3'])
    (h12 : x.length = 12) : normDigits x = x := by
  have h1 : x.take 1 = ['2'] := by
    have h := congrArg (List.take 1) h3
    rw [List.take_take] at h
    simpa using h
  unfold normDigits
  rw [if_neg, if_pos ⟨h3, h12⟩]
  rintro ⟨h0, -⟩
  rw [h1] at h0
  simp at h0

theorem normDigits_idem (d : List Char) : normDigits (normDigits d) = normDigits d := by
  by_cases h1 : d.take 1 = ['0'] ∧ d.length = 10
  · have hd : normDigits d = ['2', '3', '3'] ++ d.drop 1 := by
      unfold normDigits; rw [if_pos h1]
    rw [hd]
    apply normDigits_fix233
    · rfl
    · simp [h1.2]
  · by_cases h2 : d.take 3 = ['2', '3', '3'] ∧ d.length = 12
    · have hd : normDigits d = d := by
        unfold normDigits; rw [if_neg h1, if_pos h2]
      rw [hd]; exact hd
    · by_cases h3 : d.length = 9
      · have hd : normDigits d = ['2', '3', '3'] ++ d := by
          unfold normDigits; rw [if_neg h1, if_neg h2, if_pos h3]
        rw [hd]
        apply normDigits_fix233
        · rfl
        · simp [h3]
      · have hd : normDigits d = d := by
          unfold normDigits; rw [if_neg h1, if_neg h2, if_neg h3]
        rw [hd]; exact hd

theorem normDigits_digits (d : List Char) (h : ∀ c ∈ d, c.isDigit = true) :
    ∀ c ∈ normDigits d, c.isDigit = true := by
  intro c hc
  unfold normDigits at hc
  split_ifs at hc with h1 h2 h3
  · rcases List.mem_append.mp hc with h' | h'
    · have h'' : c = '2' ∨ c = '3' ∨ c = '3' := by simpa using h'
      rcases h'' with h'' | h'' | h'' <;> subst h'' <;> decide
    · exact h c (List.mem_of_mem_drop h')
  · exact h c hc
  · rcases List.mem_append.mp hc with h' | h'
    · have h'' : c = '2' ∨ c = '3' ∨ c = '3' := by simpa using h'
      rcases h'' with h'' | h'' | h'' <;> subst h'' <;> decide
    · exact h c h'
  · exact h c hc

theorem normalize_phone_idem (s : String) :
    normalize_phone (normalize_phone s) = normalize_phone s := by
  unfold normalize_phone
  by_cases hs : s = ""
  · simp [hs]
  · rw [if_neg hs]
    by_cases h2 : String.mk (normDigits (s.data.filter Char.isDigit)) = ""
    · rw [if_pos h2]; exact h2.symm
    · rw [if_neg h2]
      show String.mk (normDigits ((normDigits (s.data.filter Char.isDigit)).filter Char.isDigit)) = _
      have hX : ∀ c ∈ normDigits (s.data.filter Char.isDigit), c.isDigit = true :=
        normDigits_digits _ (fun c hc => (List.mem_filter.mp hc).2)
      rw [List.filter_eq_self.mpr hX, normDigits_idem]

theorem isPrefixOf_take (pre d : List Char) :
    pre.isPrefixOf d = true ↔ d.take pre.length = pre := by
  rw [List.isPrefixOf_iff_prefix, List.prefix_iff_eq_take]
  exact ⟨fun h => h.symm, fun h => h.symm⟩

theorem normalize_phone_eq_spec (raw : String) : normalize_phone raw = normalizeSpec raw := by
  unfold normalize_phone normalizeSpec normDigits
  by_cases hs : raw = ""
  · subst hs; decide
  · rw [if_neg hs]
    have hp1 : (['0'] : List Char).isPrefixOf (raw.data.filter Char.isDigit) = true ↔
        (raw.data.filter Char.isDigit).take 1 = ['0'] := isPrefixOf_take _ _
    have hp3 : (['2', '3', '3'] : List Char).isPrefixOf (raw.data.filter Char.isDigit) = true ↔
        (raw.data.filter Char.isDigit).take 3 = ['2', '3', '3'] := isPrefixOf_take _ _
    congr 1
    refine if_congr (and_congr_left fun _ => ?_) rfl (if_congr (and_congr_left fun _ => ?_) rfl rfl)
    · exact ⟨fun h => hp1.mpr h, fun h => hp1.mp h⟩
    · exact ⟨fun h => hp3.mpr h, fun h => hp3.mp h⟩

theorem take1_of_take3 {d : List Char} (h : d.take 3 = ['2', '3', '3']) : d.take 1 = ['2'] := by
  have h' := congrArg (List.take 1) h
  rw [List.take_take] at h'
  simpa using h'

/-! ## Claim theorems: Normalizer -/

/-- Claim C3: `normalize` strips every non-digit character, then applies
exactly the branch chain of the spec's Normalizer contract (the
spec-worded `normalizeSpec` agrees with the source `normalize_phone` on
every input), and the four quoted example equations hold; `normalize` is
a total pure function. -/
theorem normalizer_contract :
    (∀ raw : String, normalize_phone raw = normalizeSpec raw) ∧
    normalize_phone "0551234567" = "233551234567" ∧
    normalize_phone "+233551234567" = "233551234567" ∧
    normalize_phone "551234567" = "233551234567" ∧
    normalize_phone "" = "" :=
  ⟨normalize_phone_eq_spec, by decide, by decide, by decide, by decide⟩

/-- Claim C8: `validate_phone raw` accepts exactly when the digit count is
9-12, a digit string with trunk prefix "0" has exactly 10 digits, and one
with country-code prefix "233" has exactly 12; every rejection carries a
non-empty human-readable reason. -/
theorem validate_contract (raw : String) :
    ((validate_phone raw).1 = true ↔
      (9 ≤ (raw.data.filter Char.isDigit).length ∧ (raw.data.filter Char.isDigit).length ≤ 12 ∧
       ((raw.data.filter Char.isDigit).take 1 = ['0'] →
         (raw.data.filter Char.isDigit).length = 10) ∧
       ((raw.data.filter Char.isDigit).take 3 = ['2', '3', '3'] →
         (raw.data.filter Char.isDigit).length = 12))) ∧
    ((validate_phone raw).1 = false → (validate_phone raw).2 ≠ "") := by
  unfold validate_phone
  dsimp only
  split_ifs with h1 h2 h3 h4 h5
  · refine ⟨⟨fun h => absurd h (by decide), ?_⟩, fun _ => by decide⟩
    rintro ⟨ha, hb, -, -⟩
    exact ((by omega : False)).elim
  · refine ⟨⟨fun h => absurd h (by decide), ?_⟩, fun _ => by decide⟩
    rintro ⟨-, -, hc, -⟩
    exact absurd (hc h2) h3
  · refine ⟨⟨fun _ => ⟨by omega, by omega, fun _ => by omega, fun hc => ?_⟩, fun _ => rfl⟩,
      fun h => absurd h (by decide)⟩
    exact absurd (h2.symm.trans (take1_of_take3 hc)) (by decide)
  · refine ⟨⟨fun h => absurd h (by decide), ?_⟩, fun _ => by decide⟩
    rintro ⟨-, -, -, hd⟩
    exact absurd (hd h4) h5
  · refine ⟨⟨fun _ => ⟨by omega, by omega, fun hc => absurd hc h2, fun _ => by omega⟩,
      fun _ => rfl⟩, fun h => absurd h (by decide)⟩
  · refine ⟨⟨fun _ => ⟨by omega, by omega, fun hc => absurd hc h2, fun hc => absurd hc h4⟩,
      fun _ => rfl⟩, fun h => absurd h (by decide)⟩

/-- Witness for C8 at the concrete rejected input "12". -/
theorem validate_contract_witness : (validate_phone "12").2 ≠ "" :=
  (validate_contract "12").2 (by decide)

/-- Claim C10: `normalize` is idempotent, and the Reconciliation Engine's
whitelist snapshot (`get_whitelist`), built by re-normalizing stored
contacts, leaves contacts that registration already stored in normalized
form unchanged: the snapshot keys coincide with the stored canonical
contacts. -/
theorem normalize_idempotent_snapshot :
    (∀ s : String, normalize_phone (normalize_phone s) = normalize_phone s) ∧
    (∀ rows : List DbRow, (∀ r ∈ rows, ∃ raw, r.phone_number = normalize_phone raw) →
      get_whitelist rows = rows.map (fun r => (r.phone_number, r.app_id))) := by
  refine ⟨normalize_phone_idem, fun rows h => ?_⟩
  unfold get_whitelist
  apply List.map_congr_left
  intro r hr
  obtain ⟨raw, hraw⟩ := h r hr
  rw [hraw, normalize_phone_idem]

/-- Witness for C10 on a one-row whitelist table stored in canonical form. -/
theorem normalize_idempotent_snapshot_witness :
    (∀ r ∈ ([⟨"233551234567", "A"⟩] : List DbRow), ∃ raw, r.phone_number = normalize_phone raw) ∧
    get_whitelist [⟨"233551234567", "A"⟩] = [("233551234567", "A")] := by
  have hh : ∀ r ∈ ([⟨"233551234567", "A"⟩] : List DbRow),
      ∃ raw, r.phone_number = normalize_phone raw := by
    intro r hr
    rw [List.mem_singleton] at hr
    subst hr
    exact ⟨"0551234567", by decide⟩
  exact ⟨hh, normalize_idempotent_snapshot.2 _ hh⟩

/-! ## Whitelist Registry lemmas -/

theorem reachable_nodup (wl : List WlRow) (h : ReachableWl wl) :
    (wl.map WlRow.phone_number).Nodup := by
  induction h with
  | nil => simp
  | step wl app_id phone hwl ih =>
    unfold register
    dsimp only
    split_ifs with hv hc
    · exact ih
    · exact ih
    · unfold insertOrReplaceWl
      dsimp only
      rw [List.map_append, List.nodup_append]
      refine ⟨List.Nodup.sublist (List.Sublist.map _ (List.filter_sublist _)) ih,
        List.nodup_singleton _, ?_⟩
      intro a ha hb
      rw [List.map_singleton, List.mem_singleton] at hb
      subst hb
      obtain ⟨r, hr, hphone⟩ := List.mem_map.mp ha
      have hne := (List.mem_filter.mp hr).2
      rw [bne_iff_ne] at hne
      exact hne hphone

theorem register_first (id p : String) (h : (validate_phone p).1 = true) :
    register [] id p = (.success, [⟨normalize_phone p, id⟩]) := by
  unfold register insertOrReplaceWl
  dsimp only
  rw [if_neg (by simp [h]), if_neg (by simp)]
  rfl

theorem register_second (id p1 p2 : String) (h : (validate_phone p2).1 = true) :
    register [⟨normalize_phone p1, id⟩] id p2 =
      (.success, if normalize_phone p1 = normalize_phone p2
        then [⟨normalize_phone p2, id⟩]
        else [⟨normalize_phone p1, id⟩, ⟨normalize_phone p2, id⟩]) := by
  unfold register insertOrReplaceWl
  dsimp only
  rw [if_neg (by simp [h]), if_neg (by simp)]
  by_cases heq : normalize_phone p1 = normalize_phone p2
  · rw [if_pos heq]
    simp [heq]
  · rw [if_neg heq]
    simp [heq, bne_iff_ne, Ne, heq]

/-! ## Claim theorems: Whitelist Registry -/

/-- Claim C1, counterexample: registering identifier "A" with
"0551234567" and then re-registering "A" with "0551234568" leaves two
Whitelist Entries for "A", not exactly one — the table is keyed by
phone number, so the second registration does not replace the first
identifier-wise. -/
theorem whitelist_per_identifier_counterexample :
    (register [] "A" "0551234567").1 = .success ∧
    (register (register [] "A" "0551234567").2 "A" "0551234568").1 = .success ∧
    ¬(((register (register [] "A" "0551234567").2 "A" "0551234568").2.filter
        (fun r => r.app_id == "A")).length = 1) := by decide

/-- Claim C1, amended: after `register(id, p1)` and `register(id, p2)`
both succeed from the empty table, the entry keyed by `normalize(p2)`
binds `id`, but the count of entries for `id` is one exactly when
`normalize(p1) = normalize(p2)` and two otherwise; the per-key invariant
that holds at every reachable state is at most one Whitelist Entry per
canonical contact (the `phone_number` primary key), not per identifier. -/
theorem whitelist_reregistration_amended (id p1 p2 : String)
    (h1 : (validate_phone p1).1 = true) (h2 : (validate_phone p2).1 = true) :
    (register [] id p1).1 = .success ∧
    (register (register [] id p1).2 id p2).1 = .success ∧
    (register (register [] id p1).2 id p2).2.filter
        (fun r => r.phone_number == normalize_phone p2) = [⟨normalize_phone p2, id⟩] ∧
    ((register (register [] id p1).2 id p2).2.filter (fun r => r.app_id == id)).length =
      (if normalize_phone p1 = normalize_phone p2 then 1 else 2) ∧
    (∀ wl, ReachableWl wl → (wl.map WlRow.phone_number).Nodup) := by
  have e1 := register_first id p1 h1
  have e2 := register_second id p1 p2 h2
  rw [e1]
  dsimp only
  rw [e2]
  dsimp only
  by_cases heq : normalize_phone p1 = normalize_phone p2
  · rw [if_pos heq, if_pos heq]
    refine ⟨rfl, rfl, by simp, by simp, reachable_nodup⟩
  · rw [if_neg heq, if_neg heq]
    refine ⟨rfl, rfl, by simp [heq, bne_iff_ne, Ne], by simp, reachable_nodup⟩

/-- Witness for the amended C1 at the counterexample's concrete inputs. -/
theorem whitelist_reregistration_amended_witness :
    (validate_phone "0551234567").1 = true ∧ (validate_phone "0551234568").1 = true ∧
    (register (register [] "A" "0551234567").2 "A" "0551234568").2.filter
        (fun r => r.phone_number == normalize_phone "0551234568") =
      [⟨normalize_phone "0551234568", "A"⟩] :=
  ⟨by decide, by decide,
    (whitelist_reregistration_amended "A" "0551234567" "0551234568"
      (by decide) (by decide)).2.2.1⟩

/-- Claim C4: while a canonical contact is bound to identifier A, a
registration of the same raw contact under a different identifier B
returns the conflict outcome, mutates nothing, and the Whitelist Entry
for that contact still resolves to A. -/
theorem register_conflict_preserves_binding (wl : List WlRow) (A B X : String)
    (hAB : A ≠ B) (hv : (validate_phone X).1 = true)
    (hbind : lookupPhone wl (normalize_phone X) = some A) :
    register wl B X = (.conflict, wl) ∧
    lookupPhone (register wl B X).2 (normalize_phone X) = some A := by
  have hany : wl.any (fun r => r.phone_number == normalize_phone X && r.app_id != B) = true := by
    unfold lookupPhone at hbind
    obtain ⟨r, hfind, hrA⟩ := Option.map_eq_some'.mp hbind
    have hr_mem := List.mem_of_find?_eq_some hfind
    have hr_phone := List.find?_some hfind
    rw [List.any_eq_true]
    refine ⟨r, hr_mem, ?_⟩
    rw [Bool.and_eq_true]
    exact ⟨hr_phone, by rw [bne_iff_ne, hrA]; exact fun h => hAB h⟩
  have hreg : register wl B X = (.conflict, wl) := by
    unfold register
    dsimp only
    rw [if_neg (by simp [hv]), if_pos hany]
  exact ⟨hreg, by rw [hreg]; exact hbind⟩

/-- Witness for C4: "B" cannot take over "A"'s registered contact. -/
theorem register_conflict_preserves_binding_witness :
    register [⟨"233551234567", "A"⟩] "B" "0551234567" = (.conflict, [⟨"233551234567", "A"⟩]) :=
  (register_conflict_preserves_binding [⟨"233551234567", "A"⟩] "A" "B" "0551234567"
    (by decide) (by decide) (by decide)).1

/-! ## Claim theorems: Approval Ledger and Roster Store -/

/-- Claim C2: `record(contact, group)` is an idempotent insert-if-absent:
starting from a ledger without the pair, the first call reports
`inserted`, the second reports `alreadyPresent` and leaves the ledger
unchanged, and exactly one Approval Record for the pair exists. -/
theorem record_idempotent_insert (ledger : List (String × String)) (p g : String)
    (h : is_already_approved ledger p g = false) :
    (record ledger p g).1 = .inserted ∧
    (record (record ledger p g).2 p g).1 = .alreadyPresent ∧
    (record (record ledger p g).2 p g).2 = (record ledger p g).2 ∧
    ((record ledger p g).2.filter (fun r => r.1 == p && r.2 == g)).length = 1 := by
  have h' : ledger.any (fun r => r.1 == p && r.2 == g) = false := h
  have h1 : record ledger p g = (.inserted, ledger ++ [(p, g)]) := by
    unfold record log_approval
    rw [if_neg (by simp [h]), if_neg (by simp [h'])]
  have h2 : is_already_approved (ledger ++ [(p, g)]) p g = true := by
    unfold is_already_approved
    rw [List.any_eq_true]
    exact ⟨(p, g), by simp, by simp⟩
  have h3 : record (ledger ++ [(p, g)]) p g = (.alreadyPresent, ledger ++ [(p, g)]) := by
    unfold record
    rw [if_pos h2]
  have hnil : ledger.filter (fun r => r.1 == p && r.2 == g) = [] := by
    rw [List.filter_eq_nil_iff]
    intro a ha hfa
    have hcontr : ledger.any (fun r => r.1 == p && r.2 == g) = true :=
      List.any_eq_true.mpr ⟨a, ha, hfa⟩
    exact Bool.false_ne_true (h'.symm.trans hcontr)
  rw [h1]
  dsimp only
  rw [h3]
  refine ⟨rfl, rfl, rfl, ?_⟩
  rw [List.filter_append, hnil]
  simp

/-- Witness for C2 on the empty ledger. -/
theorem record_idempotent_insert_witness :
    is_already_approved [] "233551234567" "G" = false ∧
    (record [] "233551234567" "G").1 = .inserted :=
  ⟨by decide, (record_idempotent_insert [] "233551234567" "G" (by decide)).1⟩

/-- Claim C9: roster upsert is idempotent and last-write-wins: after two
`save_student` calls with the same identifier, exactly the latest row
exists for that identifier, all other rows are untouched, and key
uniqueness (no duplicate rows per identifier) is preserved. -/
theorem roster_upsert_last_write_wins (roster : List Student)
    (id n1 p1 c1 n2 p2 c2 : String) :
    ((save_student (save_student roster id n1 p1 c1).2 id n2 p2 c2).2.filter
        (fun s => s.app_id == id)) = [⟨id, n2, p2, c2⟩] ∧
    ((save_student (save_student roster id n1 p1 c1).2 id n2 p2 c2).2.filter
        (fun s => s.app_id != id)) = roster.filter (fun s => s.app_id != id) ∧
    ((roster.map Student.app_id).Nodup →
      ((save_student (save_student roster id n1 p1 c1).2 id n2 p2 c2).2.map
        Student.app_id).Nodup) := by
  have key : (save_student (save_student roster id n1 p1 c1).2 id n2 p2 c2).2
      = roster.filter (fun s => s.app_id != id) ++ [⟨id, n2, p2, c2⟩] := by
    unfold save_student
    dsimp only
    rw [List.filter_append, List.filter_filter]
    simp [Bool.and_self]
  rw [key]
  refine ⟨?_, ?_, fun hn => ?_⟩
  · rw [List.filter_append]
    have : (roster.filter (fun s => s.app_id != id)).filter (fun s => s.app_id == id) = [] := by
      rw [List.filter_eq_nil_iff]
      intro a ha hfa
      have := (List.mem_filter.mp ha).2
      rw [bne_iff_ne] at this
      exact this (by simpa using hfa)
    rw [this]
    simp
  · rw [List.filter_append, List.filter_filter]
    simp [Bool.and_self]
  · rw [List.map_append, List.nodup_append]
    refine ⟨List.Nodup.sublist (List.Sublist.map _ (List.filter_sublist _)) hn,
      List.nodup_singleton _, ?_⟩
    intro a ha hb
    rw [List.map_singleton, List.mem_singleton] at hb
    subst hb
    obtain ⟨r, hr, hid⟩ := List.mem_map.mp ha
    have hne := (List.mem_filter.mp hr).2
    rw [bne_iff_ne] at hne
    exact hne hid

/-- Witness for C9 at the spec's end-to-end example identity. -/
theorem roster_upsert_last_write_wins_witness :
    (([] : List Student).map Student.app_id).Nodup ∧
    (((save_student (save_student [] "12345" "Jane Doe" "Computer Engineering" "w").2
        "12345" "Jane D." "Computer Eng" "w").2.map Student.app_id).Nodup) :=
  ⟨by decide, (roster_upsert_last_write_wins [] "12345" "Jane Doe" "Computer Engineering" "w"
      "Jane D." "Computer Eng" "w").2.2 (by decide)⟩

/-! ## Reconciliation Engine lemmas -/

theorem is_already_approved_iff (l : List (String × String)) (p g : String) :
    is_already_approved l p g = true ↔ (p, g) ∈ l := by
  unfold is_already_approved
  rw [List.any_eq_true]
  constructor
  · rintro ⟨⟨r1, r2⟩, hr, hf⟩
    rw [Bool.and_eq_true] at hf
    obtain ⟨hf1, hf2⟩ := hf
    simp only [beq_iff_eq] at hf1 hf2
    subst hf1; subst hf2
    exact hr
  · intro h
    exact ⟨(p, g), h, by simp⟩

theorem mem_log_approval_of_mem {l : List (String × String)} {pr : String × String}
    (p g : String) (h : pr ∈ l) : pr ∈ log_approval l p g := by
  unfold log_approval
  split_ifs
  · exact h
  · exact List.mem_append_left _ h

theorem self_mem_log_approval (l : List (String × String)) (p g : String) :
    (p, g) ∈ log_approval l p g := by
  unfold log_approval
  split_ifs with h
  · obtain ⟨⟨r1, r2⟩, hr, hf⟩ := List.any_eq_true.mp h
    rw [Bool.and_eq_true] at hf
    obtain ⟨hf1, hf2⟩ := hf
    simp only [beq_iff_eq] at hf1 hf2
    subst hf1; subst hf2
    exact hr
  · exact List.mem_append_right _ (List.mem_singleton.mpr rfl)

theorem mem_log_approval_iff (l : List (String × String)) (p g : String)
    (pr : String × String) : pr ∈ log_approval l p g ↔ pr ∈ l ∨ pr = (p, g) := by
  unfold log_approval
  split_ifs with h
  · constructor
    · exact Or.inl
    · rintro (h' | h')
      · exact h'
      · subst h'
        obtain ⟨⟨r1, r2⟩, hr, hf⟩ := List.any_eq_true.mp h
        rw [Bool.and_eq_true] at hf
        obtain ⟨hf1, hf2⟩ := hf
        simp only [beq_iff_eq] at hf1 hf2
        subst hf1; subst hf2
        exact hr
  · rw [List.mem_append, List.mem_singleton]

/-- Each loop iteration either leaves the sweep state unchanged, or
performs one approval: logs the extracted phone's pair and appends one
external action, exactly when the phone is non-empty, whitelisted, not
yet approved, and the approve click succeeds. -/
theorem processEntry_cases (g : String) (wl : List (String × String))
    (st : SweepState) (e : Entry) :
    processEntry g wl st e = st ∨
    (extract_phone_from_element e ≠ "" ∧
     wl.any (fun r => r.1 == extract_phone_from_element e) = true ∧
     is_already_approved st.ledger (extract_phone_from_element e) g = false ∧
     e.approveBtn = true ∧
     processEntry g wl st e = ⟨st.approvals + 1,
       log_approval st.ledger (extract_phone_from_element e) g,
       st.actions ++ [extract_phone_from_element e]⟩) := by
  unfold processEntry
  dsimp only
  split_ifs with h1 h2 h3 h4
  · exact Or.inl rfl
  · exact Or.inl rfl
  · exact Or.inr ⟨h1, h2, by simpa using h3, h4, rfl⟩
  · exact Or.inl rfl
  · exact Or.inl rfl

theorem fold_ledger_mono (g : String) (wl : List (String × String)) (l : List Entry) :
    ∀ (st : SweepState) (pr : String × String), pr ∈ st.ledger →
      pr ∈ (l.foldl (processEntry g wl) st).ledger := by
  induction l with
  | nil => intro st pr h; exact h
  | cons e tl ih =>
    intro st pr h
    rw [List.foldl_cons]
    rcases processEntry_cases g wl st e with hc | ⟨-, -, -, -, hc⟩
    · rw [hc]; exact ih st pr h
    · rw [hc]; exact ih _ pr (mem_log_approval_of_mem _ _ h)

theorem fold_count_const (g : String) (wl : List (String × String)) (p : String)
    (l : List Entry) : ∀ (st : SweepState), (p, g) ∈ st.ledger →
      (l.foldl (processEntry g wl) st).actions.count p = st.actions.count p ∧
      (p, g) ∈ (l.foldl (processEntry g wl) st).ledger := by
  induction l with
  | nil => intro st h; exact ⟨rfl, h⟩
  | cons e tl ih =>
    intro st h
    rw [List.foldl_cons]
    rcases processEntry_cases g wl st e with hc | ⟨-, -, hfresh, -, hc⟩
    · rw [hc]; exact ih st h
    · by_cases hp : extract_phone_from_element e = p
      · rw [hp] at hfresh
        exact absurd ((is_already_approved_iff _ _ _).mpr h) (by simp [hfresh])
      · rw [hc]
        have hmem : (p, g) ∈ log_approval st.ledger (extract_phone_from_element e) g :=
          mem_log_approval_of_mem _ _ h
        obtain ⟨hcount, hmem'⟩ := ih ⟨st.approvals + 1,
          log_approval st.ledger (extract_phone_from_element e) g,
          st.actions ++ [extract_phone_from_element e]⟩ hmem
        refine ⟨?_, hmem'⟩
        rw [hcount]
        dsimp only
        rw [List.count_append]
        have hz : ([extract_phone_from_element e] : List String).count p = 0 :=
          List.count_eq_zero.mpr (by
            simp only [List.mem_singleton]
            exact fun h' => hp h'.symm)
        rw [hz]
        omega

theorem fold_count_ite (g : String) (wl : List (String × String)) (p : String)
    (l : List Entry) : ∀ (st : SweepState),
      st.actions.count p = (if (p, g) ∈ st.ledger then 1 else 0) →
      (l.foldl (processEntry g wl) st).actions.count p =
        (if (p, g) ∈ (l.foldl (processEntry g wl) st).ledger then 1 else 0) := by
  induction l with
  | nil => intro st h; exact h
  | cons e tl ih =>
    intro st h
    rw [List.foldl_cons]
    rcases processEntry_cases g wl st e with hc | ⟨-, -, hfresh, -, hc⟩
    · rw [hc]; exact ih st h
    · rw [hc]
      apply ih
      dsimp only
      by_cases hp : extract_phone_from_element e = p
      · subst hp
        have hnot : (extract_phone_from_element e, g) ∉ st.ledger := fun hmem =>
          absurd ((is_already_approved_iff _ _ _).mpr hmem) (by simp [hfresh])
        rw [if_neg hnot] at h
        rw [List.count_append, h, if_pos (self_mem_log_approval _ _ _)]
        simp
      · have hmem_iff : ((p, g) ∈ log_approval st.ledger (extract_phone_from_element e) g) ↔
            (p, g) ∈ st.ledger := by
          rw [mem_log_approval_iff]
          constructor
          · rintro (h' | h')
            · exact h'
            · exact absurd (congrArg Prod.fst h') (fun hx => hp hx.symm)
          · exact Or.inl
        have hz : ([extract_phone_from_element e] : List String).count p = 0 :=
          List.count_eq_zero.mpr (by
            simp only [List.mem_singleton]
            exact fun h' => hp h'.symm)
        rw [List.count_append, hz]
        by_cases hm : (p, g) ∈ st.ledger
        · rw [if_pos (hmem_iff.mpr hm)]
          rw [if_pos hm] at h
          omega
        · rw [if_neg (fun hx => hm (hmem_iff.mp hx))]
          rw [if_neg hm] at h
          omega

theorem fold_reaches_ledger (g : String) (wl : List (String × String))
    (l : List Entry) : ∀ (st : SweepState) (e : Entry), e ∈ l →
      extract_phone_from_element e ≠ "" →
      wl.any (fun r => r.1 == extract_phone_from_element e) = true →
      e.approveBtn = true →
      (extract_phone_from_element e, g) ∈ (l.foldl (processEntry g wl) st).ledger := by
  induction l with
  | nil => intro st e he; exact absurd he (List.not_mem_nil e)
  | cons a tl ih =>
    intro st e he hphone hwl hbtn
    rw [List.foldl_cons]
    rcases List.mem_cons.mp he with he' | he'
    · subst he'
      have hmem : (extract_phone_from_element e, g) ∈ (processEntry g wl st e).ledger := by
        unfold processEntry
        dsimp only
        rw [if_neg hphone, if_pos hwl]
        split_ifs with h3
        · exact (is_already_approved_iff _ _ _).mp h3
        · exact self_mem_log_approval _ _ _
      exact fold_ledger_mono g wl tl _ _ hmem
    · exact ih _ e he' hphone hwl hbtn

theorem fold_actions_le (g : String) (wl : List (String × String))
    (l : List Entry) : ∀ (st : SweepState),
      (l.foldl (processEntry g wl) st).actions.length ≤ st.actions.length + l.length ∧
      (l.foldl (processEntry g wl) st).approvals ≤ st.approvals + l.length := by
  induction l with
  | nil => intro st; exact ⟨Nat.le_refl _, Nat.le_refl _⟩
  | cons e tl ih =>
    intro st
    rw [List.foldl_cons]
    rcases processEntry_cases g wl st e with hc | ⟨-, -, -, -, hc⟩
    · rw [hc]
      obtain ⟨ha, hb⟩ := ih st
      constructor
      · calc (tl.foldl (processEntry g wl) st).actions.length
            ≤ st.actions.length + tl.length := ha
          _ ≤ st.actions.length + (e :: tl).length := by simp
      · calc (tl.foldl (processEntry g wl) st).approvals
            ≤ st.approvals + tl.length := hb
          _ ≤ st.approvals + (e :: tl).length := by simp
    · rw [hc]
      obtain ⟨ha, hb⟩ := ih ⟨st.approvals + 1,
        log_approval st.ledger (extract_phone_from_element e) g,
        st.actions ++ [extract_phone_from_element e]⟩
      dsimp only at ha hb
      rw [List.length_append] at ha
      constructor
      · refine ha.trans ?_
        simp
        omega
      · refine hb.trans ?_
        simp
        omega

theorem fold_not_in_wl (g : String) (wl : List (String × String)) (p : String)
    (hp : wl.any (fun r => r.1 == p) = false)
    (l : List Entry) : ∀ (st : SweepState),
      (l.foldl (processEntry g wl) st).actions.count p = st.actions.count p ∧
      ∀ g', (((p, g') ∈ (l.foldl (processEntry g wl) st).ledger) ↔ (p, g') ∈ st.ledger) := by
  induction l with
  | nil => intro st; exact ⟨rfl, fun g' => Iff.rfl⟩
  | cons e tl ih =>
    intro st
    rw [List.foldl_cons]
    rcases processEntry_cases g wl st e with hc | ⟨-, hwl, -, -, hc⟩
    · rw [hc]; exact ih st
    · have hne : extract_phone_from_element e ≠ p := by
        intro h'
        rw [h'] at hwl
        exact Bool.false_ne_true (hp.symm.trans hwl)
      rw [hc]
      obtain ⟨ha, hb⟩ := ih ⟨st.approvals + 1,
        log_approval st.ledger (extract_phone_from_element e) g,
        st.actions ++ [extract_phone_from_element e]⟩
      constructor
      · rw [ha]
        dsimp only
        rw [List.count_append]
        have hz : ([extract_phone_from_element e] : List String).count p = 0 :=
          List.count_eq_zero.mpr (by
            simp only [List.mem_singleton]
            exact fun h' => hne h'.symm)
        rw [hz]
        omega
      · intro g'
        rw [hb g']
        dsimp only
        rw [mem_log_approval_iff]
        constructor
        · rintro (h' | h')
          · exact h'
          · exact absurd (congrArg Prod.fst h') (fun hx => hne hx.symm)
        · exact Or.inl

/-! ## Claim theorems: Reconciliation Engine -/

/-- Claim C5: a pending entry within the per-cycle window whose extracted
contact is whitelisted, whose approve action succeeds, and whose
(contact, group) pair is not yet in the ledger, is approved exactly once
in the sweep; afterwards `has_approved` is true and no later sweep, over
any pending list and any snapshot, invokes the external approval action
for that pair again. -/
theorem reconcile_approve_exactly_once
    (entries : List Entry) (wl ledger : List (String × String)) (g : String) (e : Entry)
    (he : e ∈ entries.take MAX_APPROVALS_PER_CYCLE)
    (hphone : extract_phone_from_element e ≠ "")
    (hwl : wl.any (fun r => r.1 == extract_phone_from_element e) = true)
    (hbtn : e.approveBtn = true)
    (hfresh : is_already_approved ledger (extract_phone_from_element e) g = false) :
    (process_group entries wl ledger g).actions.count (extract_phone_from_element e) = 1 ∧
    is_already_approved (process_group entries wl ledger g).ledger
      (extract_phone_from_element e) g = true ∧
    ∀ (entries2 : List Entry) (wl2 : List (String × String)),
      (process_group entries2 wl2 (process_group entries wl ledger g).ledger g).actions.count
        (extract_phone_from_element e) = 0 := by
  unfold process_group
  have hmem : (extract_phone_from_element e, g) ∈
      ((entries.take MAX_APPROVALS_PER_CYCLE).foldl (processEntry g wl)
        ⟨0, ledger, []⟩).ledger :=
    fold_reaches_ledger g wl _ _ e he hphone hwl hbtn
  have hstart : (([] : List String).count (extract_phone_from_element e)) =
      (if (extract_phone_from_element e, g) ∈ ledger then 1 else 0) := by
    rw [if_neg (fun hx =>
      absurd ((is_already_approved_iff _ _ _).mpr hx) (by simp [hfresh]))]
    rfl
  have hcount := fold_count_ite g wl (extract_phone_from_element e)
    (entries.take MAX_APPROVALS_PER_CYCLE) ⟨0, ledger, []⟩ hstart
  refine ⟨?_, (is_already_approved_iff _ _ _).mpr hmem, ?_⟩
  · rw [hcount, if_pos hmem]
  · intro entries2 wl2
    exact ((fold_count_const g wl2 (extract_phone_from_element e)
      (entries2.take MAX_APPROVALS_PER_CYCLE) ⟨0, _, []⟩ hmem).1).trans
      (List.count_nil _)

/-- Witness for C5: one whitelisted pending entry, two consecutive sweeps,
one approval. -/
theorem reconcile_approve_exactly_once_witness :
    (process_group [⟨some "0551234567", "", true⟩] [("233551234567", "A")] [] "G").actions.count
      (extract_phone_from_element ⟨some "0551234567", "", true⟩) = 1 :=
  (reconcile_approve_exactly_once [⟨some "0551234567", "", true⟩] [("233551234567", "A")] [] "G"
    ⟨some "0551234567", "", true⟩ (by decide) (by decide) (by decide) (by decide) (by decide)).1

/-- Claim C6: an entry from which no contact can be extracted leaves the
sweep state untouched (skipped as unresolved, independent of the
whitelist), and a contact absent from the whitelist snapshot is never
approved: the sweep invokes no action for it and adds no Approval Record
with it, whatever the group. -/
theorem unresolved_and_nonwhitelisted_skipped :
    (∀ (g : String) (wl : List (String × String)) (st : SweepState) (e : Entry),
      extract_phone_from_element e = "" → processEntry g wl st e = st) ∧
    (∀ (entries : List Entry) (wl ledger : List (String × String)) (g p : String),
      wl.any (fun r => r.1 == p) = false →
      (process_group entries wl ledger g).actions.count p = 0 ∧
      ∀ g', (((p, g') ∈ (process_group entries wl ledger g).ledger) ↔ (p, g') ∈ ledger)) := by
  constructor
  · intro g wl st e h
    unfold processEntry
    dsimp only
    rw [if_pos h]
  · intro entries wl ledger g p hp
    unfold process_group
    obtain ⟨ha, hb⟩ := fold_not_in_wl g wl p hp
      (entries.take MAX_APPROVALS_PER_CYCLE) ⟨0, ledger, []⟩
    exact ⟨ha.trans (List.count_nil _), hb⟩

/-- Witness for C6: an entry with no extractable phone is a no-op, and a
non-whitelisted contact yields no action. -/
theorem unresolved_and_nonwhitelisted_skipped_witness :
    processEntry "G" [("233551234567", "A")] ⟨0, [], []⟩ ⟨none, "hello", true⟩ = ⟨0, [], []⟩ ∧
    (process_group [⟨some "0244999999", "", true⟩] [("233551234567", "A")] [] "G").actions.count
      "233244999999" = 0 :=
  ⟨unresolved_and_nonwhitelisted_skipped.1 "G" [("233551234567", "A")] ⟨0, [], []⟩
      ⟨none, "hello", true⟩ (by decide),
   (unresolved_and_nonwhitelisted_skipped.2 [⟨some "0244999999", "", true⟩]
      [("233551234567", "A")] [] "G" "233244999999" (by decide)).1⟩

/-- Claim C7: the per-cycle cap is 10, every sweep performs at most that
many external actions and counts at most that many approvals, and entries
beyond the cap are not processed at all this cycle (the sweep equals the
sweep of the first `MAX_APPROVALS_PER_CYCLE` entries, deferring the
rest). -/
theorem per_cycle_cap :
    MAX_APPROVALS_PER_CYCLE = 10 ∧
    ∀ (entries : List Entry) (wl ledger : List (String × String)) (g : String),
      (process_group entries wl ledger g).actions.length ≤ MAX_APPROVALS_PER_CYCLE ∧
      (process_group entries wl ledger g).approvals ≤ MAX_APPROVALS_PER_CYCLE ∧
      process_group entries wl ledger g =
        process_group (entries.take MAX_APPROVALS_PER_CYCLE) wl ledger g := by
  refine ⟨rfl, fun entries wl ledger g => ?_⟩
  obtain ⟨ha, hb⟩ := fold_actions_le g wl (entries.take MAX_APPROVALS_PER_CYCLE) ⟨0, ledger, []⟩
  refine ⟨?_, ?_, ?_⟩
  · unfold process_group
    refine ha.trans ?_
    simp
  · unfold process_group
    refine hb.trans ?_
    simp
  · unfold process_group
    rw [List.take_take, min_self]

end StudentVerification
